import Mathlib

set_option maxRecDepth 8000

namespace S3PathLib

/-- A character string, modelled as a list of characters. -/
abbrev Str := List Char

/-- Join a list of string segments, inserting the separator character
between consecutive segments. -/
def joinSep (c : Char) : List Str → Str
  | [] => []
  | [s] => s
  | s :: s2 :: rest => s ++ c :: joinSep c (s2 :: rest)

/-- Split a string on every occurrence of the separator character. -/
def splitOnChar (c : Char) : Str → List Str
  | [] => [[]]
  | x :: xs =>
    if x = c then [] :: splitOnChar c xs
    else
      match splitOnChar c xs with
      | [] => [[x]]
      | s :: ss => (x :: s) :: ss

/-- Split a string at the first occurrence of the separator character,
returning the part before and the part after; none if the separator does
not occur. -/
def splitFirstChar (c : Char) : Str → Option (Str × Str)
  | [] => none
  | x :: xs =>
    if x = c then some ([], xs)
    else (splitFirstChar c xs).map (fun r => (x :: r.1, r.2))

/-- The last element of a list, if any. -/
def lastElem? {α : Type} : List α → Option α
  | [] => none
  | [x] => some x
  | _ :: x :: xs => lastElem? (x :: xs)

theorem splitOnChar_ne_nil (c : Char) (l : Str) : splitOnChar c l ≠ [] := by
  induction l with
  | nil => simp [splitOnChar]
  | cons x xs ih =>
    simp only [splitOnChar]
    by_cases h : x = c
    · simp [h]
    · simp only [h, if_false]
      cases hs : splitOnChar c xs with
      | nil => exact absurd hs ih
      | cons s ss => simp

theorem splitOnChar_nosep (c : Char) (s : Str) (h : ∀ x ∈ s, x ≠ c) :
    splitOnChar c s = [s] := by
  induction s with
  | nil => rfl
  | cons x xs ih =>
    have hx : x ≠ c := h x (List.mem_cons_self x xs)
    have hxs : splitOnChar c xs = [xs] := ih (fun y hy => h y (List.mem_cons_of_mem x hy))
    simp [splitOnChar, hx, hxs]

theorem splitOnChar_sep_cons (c : Char) (s t : Str) (h : ∀ x ∈ s, x ≠ c) :
    splitOnChar c (s ++ c :: t) = s :: splitOnChar c t := by
  induction s with
  | nil => simp [splitOnChar]
  | cons x xs ih =>
    have hx : x ≠ c := h x (List.mem_cons_self x xs)
    have hxs := ih (fun y hy => h y (List.mem_cons_of_mem x hy))
    simp [splitOnChar, hx, hxs]

theorem splitOnChar_concat_sep (c : Char) (l : Str) :
    splitOnChar c (l ++ [c]) = splitOnChar c l ++ [[]] := by
  induction l with
  | nil => simp [splitOnChar]
  | cons x xs ih =>
    by_cases h : x = c
    · simp [splitOnChar, h, ih]
    · cases hs : splitOnChar c xs with
      | nil => exact absurd hs (splitOnChar_ne_nil c xs)
      | cons s ss =>
        simp [splitOnChar, h, ih, hs]

theorem splitOnChar_join (c : Char) (parts : List Str) (hne : parts ≠ [])
    (h : ∀ s ∈ parts, ∀ x ∈ s, x ≠ c) :
    splitOnChar c (joinSep c parts) = parts := by
  induction parts with
  | nil => exact absurd rfl hne
  | cons s rest ih =>
    cases rest with
    | nil =>
      simp only [joinSep]
      exact splitOnChar_nosep c s (h s (List.mem_cons_self s []))
    | cons s2 rest2 =>
      have hs : ∀ x ∈ s, x ≠ c := h s (List.mem_cons_self s (s2 :: rest2))
      have hrest : ∀ u ∈ s2 :: rest2, ∀ x ∈ u, x ≠ c :=
        fun u hu => h u (List.mem_cons_of_mem s hu)
      have := ih (by simp) hrest
      simp only [joinSep, splitOnChar_sep_cons c s _ hs, this]

theorem splitFirstChar_append (c : Char) (b t : Str) (h : ∀ x ∈ b, x ≠ c) :
    splitFirstChar c (b ++ c :: t) = some (b, t) := by
  induction b with
  | nil => simp [splitFirstChar]
  | cons x xs ih =>
    have hx : x ≠ c := h x (List.mem_cons_self x xs)
    have hxs := ih (fun y hy => h y (List.mem_cons_of_mem x hy))
    simp [splitFirstChar, hx, hxs]

theorem splitFirstChar_none (c : Char) (l : Str) (h : ∀ x ∈ l, x ≠ c) :
    splitFirstChar c l = none := by
  induction l with
  | nil => rfl
  | cons x xs ih =>
    have hx : x ≠ c := h x (List.mem_cons_self x xs)
    have hxs := ih (fun y hy => h y (List.mem_cons_of_mem x hy))
    simp [splitFirstChar, hx, hxs]

theorem lastElem?_concat {α : Type} (l : List α) (a : α) :
    lastElem? (l ++ [a]) = some a := by
  induction l with
  | nil => rfl
  | cons x xs ih =>
    cases xs with
    | nil => rfl
    | cons y ys => simpa [lastElem?] using ih

theorem lastElem?_mem {α : Type} (l : List α) (a : α) (h : lastElem? l = some a) :
    a ∈ l := by
  induction l with
  | nil => simp [lastElem?] at h
  | cons x xs ih =>
    cases xs with
    | nil =>
      simp [lastElem?] at h
      simp [h]
    | cons y ys =>
      simp only [lastElem?] at h
      exact List.mem_cons_of_mem x (ih h)

theorem lastElem?_ne_of_all {α : Type} (l : List α) (a : α) (h : ∀ x ∈ l, x ≠ a) :
    lastElem? l ≠ some a := by
  intro hc
  exact h a (lastElem?_mem l a hc) rfl

/-- Modelled from the spec: the Path data model of the missing core modules
(`s3pathlib.core`). `bucket` is optional, the key is an ordered sequence of
string segments, and `is_directory` records the trailing-separator
semantics. -/
structure S3Path where
  bucket : Option Str
  parts : List Str
  is_directory : Bool
deriving DecidableEq

/-- A key segment is valid when it is non-empty and free of the path
delimiter. -/
def validSeg (s : Str) : Bool := (!s.isEmpty) && s.all (fun x => !(x == '/'))

/-- A bucket name is valid (for what these claims need) when it is
non-empty and free of the path delimiter. -/
def validBucket (b : Str) : Bool := (!b.isEmpty) && b.all (fun x => !(x == '/'))

/-- The data-model invariants of a Path: valid segments, a valid bucket
when present, and directory-ness only on a non-empty key. -/
def wellFormed (p : S3Path) : Bool :=
  p.parts.all validSeg &&
  (match p.bucket with
   | none => true
   | some b => validBucket b) &&
  (!p.is_directory || !p.parts.isEmpty)

/-- Modelled from the spec: the derived `key` attribute — the joined
segments, with a trailing delimiter when the path is a directory. -/
def S3Path.key (p : S3Path) : Str :=
  joinSep '/' p.parts ++ (if p.is_directory then ['/'] else [])

/-- Modelled from the spec: classification predicate for the Void shape. -/
def S3Path.is_void (p : S3Path) : Bool := p.bucket.isNone && p.parts.isEmpty

/-- Modelled from the spec: classification predicate for the Relative shape. -/
def S3Path.is_relpath (p : S3Path) : Bool := p.bucket.isNone && !p.parts.isEmpty

/-- A path is concrete (Bucket, Object or Directory) when it carries a bucket. -/
def S3Path.is_concrete (p : S3Path) : Bool := p.bucket.isSome

/-- Parse a rendered key back into segments and a directory flag: split on
the delimiter, drop empty fragments, and read directory-ness off a trailing
delimiter. -/
def parseKey (k : Str) : List Str × Bool :=
  let raw := splitOnChar '/' k
  let segs := raw.filter (fun s => !s.isEmpty)
  (segs, (decide (lastElem? raw = some [])) && !segs.isEmpty)

/-- The characters of the URI scheme marker. -/
def s3UriHead : Str := ['s', '3', ':', '/', '/']

/-- The characters of the ARN namespace marker. -/
def s3ArnHead : Str := ['a', 'r', 'n', ':', 'a', 'w', 's', ':', 's', '3', ':', ':', ':']

/-- Modelled from the spec: the `uri` string-rendering accessor,
`scheme://bucket/key`; only concrete paths render. -/
def S3Path.uri (p : S3Path) : Option Str :=
  p.bucket.map (fun b => s3UriHead ++ b ++ '/' :: p.key)

/-- Modelled from the spec: the `arn` string-rendering accessor, a
namespace-qualified ARN string; only concrete paths render. -/
def S3Path.arn (p : S3Path) : Option Str :=
  p.bucket.map (fun b =>
    s3ArnHead ++ b ++ (if p.parts.isEmpty then [] else '/' :: p.key))

/-- Modelled from the spec: the error taxonomy of the Path Model. -/
inductive S3PathError where
  | malformedPathError
  | invalidJoinError
  | conflictingChangeError
  | pathRelationError
deriving DecidableEq

/-- Strip a fixed marker from the front of a string; none on mismatch. -/
def stripHead (head s : Str) : Option Str :=
  if head.isPrefixOf s then some (s.drop head.length) else none

/-- Shared tail of the two strict-format parsers: after the marker, the
text up to the first delimiter is the bucket and the remainder is the
key. -/
def parseRest (rest : Str) : Except S3PathError S3Path :=
  match splitFirstChar '/' rest with
  | some (b, k) =>
    if b.isEmpty then .error .malformedPathError
    else
      let pk := parseKey k
      .ok ⟨some b, pk.1, pk.2⟩
  | none =>
    if rest.isEmpty then .error .malformedPathError
    else .ok ⟨some rest, [], false⟩

/-- Modelled from the spec: `from_uri`, the strict-format URI parser of the
missing `s3pathlib.core` module; fails with MalformedPathError on scheme
mismatch. -/
def S3Path.from_s3_uri (s : Str) : Except S3PathError S3Path :=
  match stripHead s3UriHead s with
  | none => .error .malformedPathError
  | some rest => parseRest rest

/-- Modelled from the spec: `from_arn`, the strict-format ARN parser of the
missing `s3pathlib.core` module; fails with MalformedPathError on format
mismatch. -/
def S3Path.from_s3_arn (s : Str) : Except S3PathError S3Path :=
  match stripHead s3ArnHead s with
  | none => .error .malformedPathError
  | some rest => parseRest rest

theorem wellFormed_parts_valid (p : S3Path) (h : wellFormed p = true) :
    ∀ s ∈ p.parts, s ≠ [] ∧ ∀ x ∈ s, x ≠ '/' := by
  simp only [wellFormed, Bool.and_eq_true] at h
  intro s hs
  have hv := (List.all_eq_true.mp h.1.1) s hs
  simp only [validSeg, Bool.and_eq_true] at hv
  obtain ⟨hv1, hv2⟩ := hv
  refine ⟨?_, ?_⟩
  · intro hc
    rw [hc] at hv1
    simp at hv1
  · intro x hx
    simpa using (List.all_eq_true.mp hv2) x hx

theorem wellFormed_dir_nonempty (p : S3Path) (h : wellFormed p = true)
    (hd : p.is_directory = true) : p.parts ≠ [] := by
  simp only [wellFormed, Bool.and_eq_true, hd] at h
  intro hc
  have h2 := h.2
  rw [hc] at h2
  simp at h2

theorem wellFormed_bucket_valid (p : S3Path) (b : Str) (h : wellFormed p = true)
    (hb : p.bucket = some b) : b ≠ [] ∧ ∀ x ∈ b, x ≠ '/' := by
  simp only [wellFormed, hb, Bool.and_eq_true] at h
  have hvb := h.1.2
  simp only [validBucket, Bool.and_eq_true] at hvb
  obtain ⟨hv1, hv2⟩ := hvb
  refine ⟨?_, ?_⟩
  · intro hc
    rw [hc] at hv1
    simp at hv1
  · intro x hx
    simpa using (List.all_eq_true.mp hv2) x hx

theorem filter_nonempty_eq_self (l : List Str) (h : ∀ s ∈ l, s ≠ []) :
    l.filter (fun s => !s.isEmpty) = l := by
  induction l with
  | nil => rfl
  | cons x xs ih =>
    have hx : x ≠ [] := h x (List.mem_cons_self x xs)
    have hxs := ih (fun y hy => h y (List.mem_cons_of_mem x hy))
    have hx2 : (!x.isEmpty) = true := by
      cases x with
      | nil => exact absurd rfl hx
      | cons a as => rfl
    simp [List.filter, hx2, hxs]

/-- Parsing the rendered key of a well-formed path recovers its segments
and its directory flag. -/
theorem parseKey_key (p : S3Path) (h : wellFormed p = true) :
    parseKey p.key = (p.parts, p.is_directory) := by
  have hsegs := wellFormed_parts_valid p h
  have hnn : ∀ s ∈ p.parts, s ≠ [] := fun s hs => (hsegs s hs).1
  have hfree : ∀ s ∈ p.parts, ∀ x ∈ s, x ≠ '/' := fun s hs => (hsegs s hs).2
  cases hd : p.is_directory with
  | false =>
    have hk : p.key = joinSep '/' p.parts := by simp [S3Path.key, hd]
    cases hp : p.parts with
    | nil =>
      rw [parseKey, hk, hp]
      simp [joinSep, splitOnChar, lastElem?, List.filter]
    | cons s rest =>
      have hne : p.parts ≠ [] := by simp [hp]
      have hsplit := splitOnChar_join '/' p.parts hne hfree
      rw [parseKey, hk, hsplit]
      have hfilter := filter_nonempty_eq_self p.parts hnn
      have hlast : lastElem? p.parts ≠ some [] := lastElem?_ne_of_all p.parts [] hnn
      rw [hp] at hfilter hlast ⊢
      simp only [hfilter]
      simp [hlast]
  | true =>
    have hne : p.parts ≠ [] := wellFormed_dir_nonempty p h hd
    have hk : p.key = joinSep '/' p.parts ++ ['/'] := by simp [S3Path.key, hd]
    have hsplit : splitOnChar '/' p.key = p.parts ++ [[]] := by
      rw [hk, splitOnChar_concat_sep, splitOnChar_join '/' p.parts hne hfree]
    rw [parseKey, hsplit]
    have hfilter : (p.parts ++ [[]]).filter (fun s => !s.isEmpty) = p.parts := by
      rw [List.filter_append, filter_nonempty_eq_self p.parts hnn]
      simp [List.filter, List.isEmpty]
    have hlast : lastElem? (p.parts ++ [[]]) = some [] := lastElem?_concat p.parts []
    simp only [hfilter, hlast]
    cases hp : p.parts with
    | nil => exact absurd hp hne
    | cons s rest => simp

/-- On well-formed paths the rendered key determines the segments and the
directory flag. -/
theorem key_inj (p q : S3Path) (hp : wellFormed p = true) (hq : wellFormed q = true)
    (hb : p.bucket = q.bucket) (hk : p.key = q.key) : p = q := by
  have h1 := parseKey_key p hp
  have h2 := parseKey_key q hq
  rw [hk, h2] at h1
  cases p with
  | mk pb pp pd =>
    cases q with
    | mk qb qp qd =>
      simp at hb h1
      simp [hb, h1.1, h1.2]

theorem stripHead_append (head t : Str) : stripHead head (head ++ t) = some t := by
  have h1 : head.isPrefixOf (head ++ t) = true :=
    List.isPrefixOf_iff_prefix.mpr (List.prefix_append head t)
  simp [stripHead, h1]

theorem parseRest_with_key (p : S3Path) (b : Str) (hwf : wellFormed p = true)
    (hb : p.bucket = some b) : parseRest (b ++ '/' :: p.key) = .ok p := by
  obtain ⟨hbne, hbfree⟩ := wellFormed_bucket_valid p b hwf hb
  have hsplit := splitFirstChar_append '/' b p.key hbfree
  have hbe : b.isEmpty = false := by
    cases b with
    | nil => exact absurd rfl hbne
    | cons x xs => rfl
  rw [parseRest, hsplit]
  simp only [hbe, Bool.false_eq_true, if_false, parseKey_key p hwf]
  cases p with
  | mk pb pp pd =>
    simp only at hb
    simp [hb]

theorem parseRest_bucket_only (p : S3Path) (b : Str) (hwf : wellFormed p = true)
    (hb : p.bucket = some b) (hparts : p.parts = []) : parseRest b = .ok p := by
  obtain ⟨hbne, hbfree⟩ := wellFormed_bucket_valid p b hwf hb
  have hsplit := splitFirstChar_none '/' b hbfree
  have hbe : b.isEmpty = false := by
    cases b with
    | nil => exact absurd rfl hbne
    | cons x xs => rfl
  have hdir : p.is_directory = false := by
    cases hd : p.is_directory with
    | false => rfl
    | true => exact absurd hparts (wellFormed_dir_nonempty p hwf hd)
  rw [parseRest, hsplit]
  simp only [hbe, Bool.false_eq_true, if_false]
  cases p with
  | mk pb pp pd =>
    simp only at hb hparts hdir
    simp [hb, hparts, hdir]

/-- C2: for every well-formed concrete Path (bucket-only, object, or
directory), parsing the string rendered by the uri accessor with
from_s3_uri, and parsing the string rendered by the arn accessor with
from_s3_arn, each returns the Path itself — bucket, key, and
directory-ness are preserved. -/
theorem claim_C2 (p : S3Path) (u a : Str) (hwf : wellFormed p = true)
    (hu : p.uri = some u) (ha : p.arn = some a) :
    S3Path.from_s3_uri u = .ok p ∧ S3Path.from_s3_arn a = .ok p := by
  cases hb : p.bucket with
  | none => rw [S3Path.uri, hb] at hu; simp at hu
  | some b =>
    rw [S3Path.uri, hb] at hu
    rw [S3Path.arn, hb] at ha
    simp only [Option.map_some', Option.some.injEq] at hu ha
    constructor
    · rw [← hu, S3Path.from_s3_uri, List.append_assoc, stripHead_append]
      exact parseRest_with_key p b hwf hb
    · rw [← ha, S3Path.from_s3_arn, List.append_assoc, stripHead_append]
      cases hparts : p.parts with
      | nil =>
        simp only [hparts, List.isEmpty_nil, if_true, List.append_nil]
        exact parseRest_bucket_only p b hwf hb hparts
      | cons s rest =>
        simp only [hparts, List.isEmpty_cons, Bool.false_eq_true, if_false]
        exact parseRest_with_key p b hwf hb

def pWitC2 : S3Path :=
  ⟨some (String.toList "bucket"), [String.toList "folder", String.toList "data"], true⟩

theorem claim_C2_witness :
    S3Path.from_s3_uri (String.toList "s3://bucket/folder/data/") = .ok pWitC2 ∧
    S3Path.from_s3_arn (String.toList "arn:aws:s3:::bucket/folder/data/") = .ok pWitC2 :=
  claim_C2 pWitC2 (String.toList "s3://bucket/folder/data/")
    (String.toList "arn:aws:s3:::bucket/folder/data/")
    (by decide) (by decide) (by decide)

/-- Modelled from the spec: relative_to of the missing `s3pathlib.core`
module — defined when the ancestor's key segments are a segment-wise
prefix of this path's segments and both carry the same bucket (or both are
Relative); otherwise it fails with PathRelationError. -/
def S3Path.relative_to (p other : S3Path) : Except S3PathError S3Path :=
  if decide (p.bucket = other.bucket) && other.parts.isPrefixOf p.parts then
    let rest := p.parts.drop other.parts.length
    .ok ⟨none, rest, if rest.isEmpty then false else p.is_directory⟩
  else .error .pathRelationError

/-- Modelled from the spec: joining one Relative or Void path onto a path;
a void right operand leaves the left operand unchanged, otherwise the
result's directory-ness comes from the right operand. -/
def joinOne (p q : S3Path) : S3Path :=
  if q.parts.isEmpty then p
  else ⟨p.bucket, p.parts ++ q.parts, q.is_directory⟩

/-- Modelled from the spec: join_path of the missing `s3pathlib.core`
module — requires the left operand concrete and every right operand
Relative or Void, failing with InvalidJoinError otherwise. -/
def S3Path.join_path (p : S3Path) (others : List S3Path) : Except S3PathError S3Path :=
  if !p.is_concrete then .error .invalidJoinError
  else if others.all (fun q => q.bucket.isNone) then .ok (others.foldl joinOne p)
  else .error .invalidJoinError

/-- C3: relative_to succeeds — returning a non-concrete (Relative) result,
Void at equality — exactly when the ancestor's key segments are a
segment-wise prefix of this path's segments and the buckets agree (both
Relative included); in every other case, including an ancestor with more
segments than the path, it fails with PathRelationError. -/
theorem claim_C3 (p a : S3Path) :
    ((∃ r, p.relative_to a = .ok r) ↔
      (p.bucket = a.bucket ∧ a.parts.isPrefixOf p.parts = true)) ∧
    (∀ r, p.relative_to a = .ok r → r.bucket = none ∧ (p = a → r.is_void = true)) ∧
    (¬ (p.bucket = a.bucket ∧ a.parts.isPrefixOf p.parts = true) →
      p.relative_to a = .error .pathRelationError) := by
  cases hcond : decide (p.bucket = a.bucket) && a.parts.isPrefixOf p.parts with
  | true =>
    have hok : p.relative_to a =
        .ok ⟨none, p.parts.drop a.parts.length,
          if (p.parts.drop a.parts.length).isEmpty then false
          else p.is_directory⟩ := by
      rw [S3Path.relative_to, hcond, if_pos rfl]
    have hcond2 := hcond
    simp only [Bool.and_eq_true, decide_eq_true_eq] at hcond2
    refine ⟨⟨fun _ => hcond2, fun _ => ⟨_, hok⟩⟩, ?_, ?_⟩
    · intro r hr
      rw [hok] at hr
      injection hr with hr
      refine ⟨by rw [← hr], ?_⟩
      intro hpa
      subst hpa
      simp only [List.drop_length, List.isEmpty_nil, if_true] at hr
      rw [← hr]
      rfl
    · intro hc
      exact absurd hcond2 hc
  | false =>
    have herr : p.relative_to a = .error .pathRelationError := by
      rw [S3Path.relative_to, hcond]
      simp
    have hcond2 : ¬ (p.bucket = a.bucket ∧ a.parts.isPrefixOf p.parts = true) := by
      intro hc
      have : (decide (p.bucket = a.bucket) && a.parts.isPrefixOf p.parts) = true := by
        rw [Bool.and_eq_true]
        exact ⟨decide_eq_true hc.1, hc.2⟩
      rw [hcond] at this
      exact Bool.noConfusion this
    refine ⟨⟨?_, fun hc => absurd hc hcond2⟩, ?_, fun _ => herr⟩
    · rintro ⟨r, hr⟩
      rw [herr] at hr
      exact Except.noConfusion hr
    · intro r hr
      rw [herr] at hr
      exact Except.noConfusion hr

def pWitC3a : S3Path := ⟨some (String.toList "bucket"), [String.toList "a"], false⟩

def pWitC3b : S3Path :=
  ⟨some (String.toList "bucket"),
    [String.toList "a", String.toList "b", String.toList "c"], false⟩

theorem claim_C3_witness :
    pWitC3a.relative_to pWitC3b = .error .pathRelationError :=
  (claim_C3 pWitC3a pWitC3b).2.2 (by decide)

/-- C5: for concrete paths a and b in the same bucket where b's key
segments extend a's key segments (a is a segment-wise ancestor of b; at
segment-equality the paths coincide), joining b.relative_to(a) back onto a
returns exactly b, with b's directory-ness preserved. -/
theorem claim_C5 (a b : S3Path) (bk : Str)
    (hab : a.bucket = some bk) (hbb : b.bucket = some bk)
    (hpre : a.parts.isPrefixOf b.parts = true)
    (hcase : a.parts = b.parts → a = b) :
    ∃ r, b.relative_to a = .ok r ∧ r.bucket = none ∧ a.join_path [r] = .ok b := by
  have hbk : b.bucket = a.bucket := by rw [hab, hbb]
  have hcond : (decide (b.bucket = a.bucket) && a.parts.isPrefixOf b.parts) = true := by
    rw [Bool.and_eq_true]
    exact ⟨decide_eq_true hbk, hpre⟩
  have hok : b.relative_to a =
      .ok ⟨none, b.parts.drop a.parts.length,
        if (b.parts.drop a.parts.length).isEmpty then false
        else b.is_directory⟩ := by
    rw [S3Path.relative_to, hcond, if_pos rfl]
  have hconc : (!a.is_concrete) = false := by
    simp [S3Path.is_concrete, hab]
  have hprefix : a.parts <+: b.parts := List.isPrefixOf_iff_prefix.mp hpre
  refine ⟨_, hok, rfl, ?_⟩
  rw [S3Path.join_path, hconc]
  simp only [Bool.false_eq_true, if_false, List.all_cons, List.all_nil,
    Option.isNone_none, Bool.and_true, if_true, List.foldl]
  cases hrest : (b.parts.drop a.parts.length).isEmpty with
  | true =>
    have hdrop : b.parts.drop a.parts.length = [] := by
      cases hd : b.parts.drop a.parts.length with
      | nil => rfl
      | cons x xs => rw [hd] at hrest; exact Bool.noConfusion hrest
    have hlen1 : b.parts.length ≤ a.parts.length := List.drop_eq_nil_iff.mp hdrop
    have hlen2 : a.parts.length ≤ b.parts.length := hprefix.length_le
    have heqp : a.parts = b.parts :=
      List.IsPrefix.eq_of_length hprefix (Nat.le_antisymm hlen2 hlen1)
    have hb2 : a = b := hcase heqp
    subst hb2
    rw [joinOne]
    simp [hdrop]
  | false =>
    rw [joinOne]
    simp only [hrest, Bool.false_eq_true, if_false]
    have happ : a.parts ++ b.parts.drop a.parts.length = b.parts :=
      List.prefix_iff_eq_append.mp hprefix
    cases b with
    | mk bb bp bd =>
      simp only at hbb happ
      simp [hab, hbb, happ]

def pWitC5a : S3Path := ⟨some (String.toList "bucket"), [String.toList "folder"], true⟩

def pWitC5b : S3Path :=
  ⟨some (String.toList "bucket"),
    [String.toList "folder", String.toList "file.txt"], false⟩

theorem claim_C5_witness :
    ∃ r, pWitC5b.relative_to pWitC5a = .ok r ∧ r.bucket = none ∧
      pWitC5a.join_path [r] = .ok pWitC5b :=
  claim_C5 pWitC5a pWitC5b (String.toList "bucket") (by decide) (by decide)
    (by decide) (by decide)

/-- Lexicographic strict order on character strings. -/
def ltStr : Str → Str → Bool
  | [], [] => false
  | [], _ :: _ => true
  | _ :: _, [] => false
  | x :: xs, y :: ys => if x = y then ltStr xs ys else decide (x < y)

/-- Modelled from the spec: the comparison operator of the missing
`s3pathlib.core` module — lexicographic over (bucket, key), the key
rendered with its trailing delimiter. -/
def ltPath (p q : S3Path) : Bool :=
  if p.bucket = q.bucket then ltStr p.key q.key
  else ltStr (p.bucket.getD []) (q.bucket.getD [])

theorem ltStr_trichotomy (xs ys : Str) :
    (ltStr xs ys = true ∧ xs ≠ ys ∧ ltStr ys xs = false) ∨
    (xs = ys ∧ ltStr xs ys = false ∧ ltStr ys xs = false) ∨
    (ltStr ys xs = true ∧ xs ≠ ys ∧ ltStr xs ys = false) := by
  induction xs generalizing ys with
  | nil =>
    cases ys with
    | nil => exact Or.inr (Or.inl ⟨rfl, rfl, rfl⟩)
    | cons y ys => exact Or.inl ⟨rfl, by simp, rfl⟩
  | cons x xs ih =>
    cases ys with
    | nil => exact Or.inr (Or.inr ⟨rfl, by simp, rfl⟩)
    | cons y ys =>
      by_cases hxy : x = y
      · subst hxy
        have heq : ∀ zs ws, ltStr (x :: zs) (x :: ws) = ltStr zs ws := by
          intro zs ws
          simp [ltStr]
        rcases ih ys with ⟨h1, h2, h3⟩ | ⟨h1, h2, h3⟩ | ⟨h1, h2, h3⟩
        · exact Or.inl ⟨by rw [heq, h1], by simp [h2], by rw [heq, h3]⟩
        · exact Or.inr (Or.inl ⟨by rw [h1], by rw [heq, h2], by rw [heq, h3]⟩)
        · exact Or.inr (Or.inr ⟨by rw [heq, h1], by simp [h2], by rw [heq, h3]⟩)
      · have hlt : ltStr (x :: xs) (y :: ys) = decide (x < y) := by
          simp [ltStr, hxy]
        have hgt : ltStr (y :: ys) (x :: xs) = decide (y < x) := by
          have : y ≠ x := fun hc => hxy hc.symm
          simp [ltStr, this]
        rcases lt_trichotomy x y with hc | hc | hc
        · refine Or.inl ⟨?_, by simp [hxy], ?_⟩
          · rw [hlt]; exact decide_eq_true hc
          · rw [hgt]
            exact decide_eq_false (fun hyx => absurd hc (not_lt_of_gt hyx))
        · exact absurd hc hxy
        · refine Or.inr (Or.inr ⟨?_, by simp [hxy], ?_⟩)
          · rw [hgt]; exact decide_eq_true hc
          · rw [hlt]
            exact decide_eq_false (fun hxy2 => absurd hc (not_lt_of_gt hxy2))

def pWitA : S3Path := ⟨some (String.toList "bucket"), [String.toList "a"], false⟩

def pWitADir : S3Path := ⟨some (String.toList "bucket"), [String.toList "a"], true⟩

def pWitA1 : S3Path :=
  ⟨some (String.toList "bucket"), [String.toList "a", String.toList "1"], false⟩

def pWitA2 : S3Path :=
  ⟨some (String.toList "bucket"), [String.toList "a", String.toList "2"], false⟩

/-- C4: on well-formed paths with the same bucket exactly one of less-than,
equality and greater-than holds — the order is lexicographic over
(bucket, key) — and at a boundary the directory path sorts after the
same-named object path ("bucket/a/" is greater than "bucket/a") while
"bucket/a/1" sorts before "bucket/a/2". -/
theorem claim_C4 :
    (∀ p q : S3Path, wellFormed p = true → wellFormed q = true →
      p.bucket = q.bucket →
      ((ltPath p q = true ∧ p ≠ q ∧ ltPath q p = false) ∨
       (p = q ∧ ltPath p q = false ∧ ltPath q p = false) ∨
       (ltPath q p = true ∧ p ≠ q ∧ ltPath p q = false))) ∧
    ltPath pWitA pWitADir = true ∧ ltPath pWitADir pWitA = false ∧
    ltPath pWitA1 pWitA2 = true ∧ ltPath pWitA2 pWitA1 = false := by
  refine ⟨?_, by decide, by decide, by decide, by decide⟩
  intro p q hp hq hb
  have hlt1 : ltPath p q = ltStr p.key q.key := by
    simp [ltPath, hb]
  have hlt2 : ltPath q p = ltStr q.key p.key := by
    simp [ltPath, hb]
  rcases ltStr_trichotomy p.key q.key with ⟨h1, h2, h3⟩ | ⟨h1, h2, h3⟩ | ⟨h1, h2, h3⟩
  · refine Or.inl ⟨by rw [hlt1, h1], ?_, by rw [hlt2, h3]⟩
    intro hc
    exact h2 (by rw [hc])
  · refine Or.inr (Or.inl ⟨key_inj p q hp hq hb h1, by rw [hlt1, h2], by rw [hlt2, h3]⟩)
  · refine Or.inr (Or.inr ⟨by rw [hlt2, h1], ?_, by rw [hlt1, h3]⟩)
    intro hc
    exact h2 (by rw [hc])

theorem claim_C4_witness :
    (ltPath pWitA pWitA1 = true ∧ pWitA ≠ pWitA1 ∧ ltPath pWitA1 pWitA = false) ∨
    (pWitA = pWitA1 ∧ ltPath pWitA pWitA1 = false ∧ ltPath pWitA1 pWitA = false) ∨
    (ltPath pWitA1 pWitA = true ∧ pWitA ≠ pWitA1 ∧ ltPath pWitA pWitA1 = false) :=
  claim_C4.1 pWitA pWitA1 (by decide) (by decide) rfl

/-- Modelled from the spec: the per-instance MetadataSnapshot — optional
server-derived attributes, all empty until a fetch populates them. -/
structure Metadata where
  etag : Option Str
  size : Option Nat
  last_modified_at : Option Nat
  version_id : Option Str
  expire_at : Option Nat
deriving DecidableEq

/-- The empty metadata snapshot: nothing cached. -/
def emptyMetadata : Metadata := ⟨none, none, none, none, none⟩

/-- A Path instance at runtime: the immutable path value together with the
instance-owned metadata cache. -/
structure S3PathInst where
  path : S3Path
  cache : Metadata
deriving DecidableEq

/-- A simple rolling hash of a character string. -/
def strHash (s : Str) : Nat := s.foldl (fun h c => h * 131 + c.toNat) 7

/-- Modelled from the spec: the hash of a Path is derived from the tuple
(bucket, key, is_directory) only. -/
def S3Path.hashTuple (p : S3Path) : Nat :=
  ((match p.bucket with
    | none => 0
    | some b => 1 + strHash b) * 1000003 + strHash p.key) * 2 +
  (if p.is_directory then 1 else 0)

/-- Modelled from the spec: instance equality is decided solely by the
tuple (bucket, key, is_directory) — the caches take no part. -/
def instEq (a b : S3PathInst) : Bool :=
  decide (a.path.bucket = b.path.bucket) &&
  decide (a.path.key = b.path.key) &&
  decide (a.path.is_directory = b.path.is_directory)

/-- Modelled from the spec: the instance hash reads only the path tuple,
never the cache. -/
def instHash (a : S3PathInst) : Nat := a.path.hashTuple

/-- C6: equality of Path instances is decided solely by the tuple
(bucket, key, is_directory) and hashing is derived from the same tuple, so
two instances with the same tuple are equal and hash identically no matter
what metadata either instance has cached. -/
theorem claim_C6 (a b : S3PathInst) :
    (instEq a b = true ↔
      (a.path.bucket = b.path.bucket ∧ a.path.key = b.path.key ∧
       a.path.is_directory = b.path.is_directory)) ∧
    (instEq a b = true → instHash a = instHash b) := by
  have hiff : instEq a b = true ↔
      (a.path.bucket = b.path.bucket ∧ a.path.key = b.path.key ∧
       a.path.is_directory = b.path.is_directory) := by
    simp [instEq, Bool.and_eq_true, decide_eq_true_eq, and_assoc]
  refine ⟨hiff, ?_⟩
  intro he
  obtain ⟨h1, h2, h3⟩ := hiff.mp he
  rw [instHash, instHash, S3Path.hashTuple, S3Path.hashTuple, h1, h2, h3]

def instWit1 : S3PathInst :=
  ⟨⟨some (String.toList "bucket"), [String.toList "file.txt"], false⟩,
    ⟨some (String.toList "etag-one"), some 10, some 100, none, none⟩⟩

def instWit2 : S3PathInst :=
  ⟨⟨some (String.toList "bucket"), [String.toList "file.txt"], false⟩,
    ⟨some (String.toList "etag-two"), some 99, none, none, some 5⟩⟩

theorem claim_C6_witness :
    instEq instWit1 instWit2 = true ∧ instHash instWit1 = instHash instWit2 :=
  ⟨(claim_C6 instWit1 instWit2).1.mpr (by decide),
    (claim_C6 instWit1 instWit2).2 ((claim_C6 instWit1 instWit2).1.mpr (by decide))⟩

/-- The pool of per-instance caches: each instance identifier owns its own
metadata snapshot. -/
def CacheWorld : Type := Nat → Metadata

/-- Modelled from the spec: clear_cache of the missing metadata mixin —
empties exactly the invoking instance's cache, forcing its next access to
re-fetch. -/
def clear_cache (w : CacheWorld) (i : Nat) : CacheWorld :=
  fun j => if j = i then emptyMetadata else w j

/-- Modelled from the spec: a fetch populates only the fetching instance's
cache. -/
def fetch_into (w : CacheWorld) (i : Nat) (m : Metadata) : CacheWorld :=
  fun j => if j = i then m else w j

/-- Modelled from the spec: copying or deriving a Path starts the new
instance with an empty cache — the source's cache is never copied. -/
def copyInst (a : S3PathInst) : S3PathInst := ⟨a.path, emptyMetadata⟩

/-- C8: caches of distinct instances are disjoint state — clear_cache on
one instance leaves every cached attribute of any other instance unchanged
(even one that was independently fetched into), and copying or deriving a
Path never carries over the source's cache. -/
theorem claim_C8 (w : CacheWorld) (i j : Nat) (m : Metadata) (hij : i ≠ j) :
    clear_cache w i j = w j ∧
    clear_cache (fetch_into w j m) i j = m ∧
    clear_cache w i i = emptyMetadata ∧
    (∀ a : S3PathInst, (copyInst a).cache = emptyMetadata ∧ (copyInst a).path = a.path) := by
  have hji : j ≠ i := fun hc => hij hc.symm
  refine ⟨?_, ?_, ?_, fun a => ⟨rfl, rfl⟩⟩
  · simp [clear_cache, hji]
  · simp [clear_cache, fetch_into, hji]
  · simp [clear_cache]

def cacheWitWorld : CacheWorld := fun _ => emptyMetadata

def cacheWitMeta : Metadata := ⟨some (String.toList "abc"), some 42, none, none, none⟩

theorem claim_C8_witness :
    clear_cache cacheWitWorld 0 1 = cacheWitWorld 1 ∧
    clear_cache (fetch_into cacheWitWorld 1 cacheWitMeta) 0 1 = cacheWitMeta ∧
    clear_cache cacheWitWorld 0 0 = emptyMetadata ∧
    (∀ a : S3PathInst, (copyInst a).cache = emptyMetadata ∧ (copyInst a).path = a.path) :=
  claim_C8 cacheWitWorld 0 1 cacheWitMeta (by decide)

/-- Python-level errors the immutability contract surfaces. -/
inductive PyError where
  | attributeError
deriving DecidableEq

/-- Modelled from the spec/doc: S3Path is immutable — assigning to any
attribute raises AttributeError; the pair returned here is the outcome of
the attempted assignment together with the observable instance after it. -/
def try_set_attr (p : S3Path) (attr v : Str) : Option PyError × S3Path :=
  (some .attributeError, p)

/-- C9: attempting to assign any attribute of a constructed Path raises
AttributeError and leaves the instance's (bucket, key, is_directory)
observably unchanged; the operations of the model return new values and
never mutate an existing instance in place. -/
theorem claim_C9 (p : S3Path) (attr v : Str) :
    (try_set_attr p attr v).1 = some PyError.attributeError ∧
    (try_set_attr p attr v).2 = p ∧
    (try_set_attr p attr v).2.bucket = p.bucket ∧
    (try_set_attr p attr v).2.key = p.key ∧
    (try_set_attr p attr v).2.is_directory = p.is_directory :=
  ⟨rfl, rfl, rfl, rfl, rfl⟩

/-- Modelled from the spec/doc: the lazy iterator/filter engine of the
missing `iterproxy` module — a raw source of items, an optional limit that
truncates the raw stream before any filter runs, and the registered
predicates, ANDed together. -/
structure IterEngine (α : Type) where
  source : List α
  limit : Option Nat
  preds : List (α → Bool)

/-- An item passes when every registered predicate accepts it. -/
def IterEngine.passes {α : Type} (e : IterEngine α) (x : α) : Bool :=
  e.preds.all (fun f => f x)

/-- The sequence the engine yields: the limit truncates the raw stream
first, the filters apply only to what survives the truncation. -/
def IterEngine.stream {α : Type} (e : IterEngine α) : List α :=
  (match e.limit with
   | some l => e.source.take l
   | none => e.source).filter e.passes

/-- Modelled from the spec/doc: the terminal operation all() — pull until
exhaustion. -/
def IterEngine.consumeAll {α : Type} (e : IterEngine α) : List α := e.stream

/-- Modelled from the spec/doc: registering one more filter on the engine. -/
def IterEngine.addFilter {α : Type} (e : IterEngine α) (f : α → Bool) : IterEngine α :=
  ⟨e.source, e.limit, e.preds ++ [f]⟩

/-- Modelled from the spec/doc: the error taxonomy of the terminal
operations. -/
inductive IterError where
  | notFoundError
  | multipleFoundError
deriving DecidableEq

/-- Modelled from the spec/doc: the terminal operation one() — consumes at
most one item of the (filtered) sequence and hands back the unconsumed
remainder. -/
def IterEngine.one {α : Type} (e : IterEngine α) : Except IterError (α × List α) :=
  match e.stream with
  | [] => .error .notFoundError
  | x :: rest => .ok (x, rest)

/-- C1: with limit L over a raw source, all() yields exactly the matches
among the first L raw items — M items when the filter matches M < L of
them — the limit truncates the raw pre-filter stream, and items beyond the
first L raw items never reach the filter (replacing them changes
nothing). -/
theorem claim_C1 {α : Type} (raw rest : List α) (L M : Nat) (f : α → Bool)
    (hL : L ≤ raw.length) (hM : ((raw.take L).filter f).length = M) (hML : M < L) :
    (IterEngine.consumeAll ⟨raw, some L, [f]⟩).length = M ∧
    IterEngine.consumeAll ⟨raw, some L, [f]⟩ = (raw.take L).filter f ∧
    IterEngine.consumeAll ⟨raw.take L ++ rest, some L, [f]⟩ =
      IterEngine.consumeAll ⟨raw, some L, [f]⟩ := by
  have hpass : ∀ (l : List α),
      l.filter (IterEngine.passes ⟨raw, some L, [f]⟩) = l.filter f := by
    intro l
    apply List.filter_congr
    intro x _
    simp [IterEngine.passes]
  have hstream : IterEngine.consumeAll ⟨raw, some L, [f]⟩ = (raw.take L).filter f := by
    rw [IterEngine.consumeAll, IterEngine.stream]
    exact hpass (raw.take L)
  have htake : (raw.take L ++ rest).take L = raw.take L := by
    have hlen : (raw.take L).length = L := by
      rw [List.length_take]
      exact Nat.min_eq_left hL
    exact List.take_left' hlen
  refine ⟨by rw [hstream, hM], hstream, ?_⟩
  rw [IterEngine.consumeAll, IterEngine.stream, hstream]
  simp only [htake]
  exact hpass (raw.take L)

theorem claim_C1_witness :
    (IterEngine.consumeAll ⟨[1, 2, 3, 4, 5, 6], some 4, [fun n => n % 2 == 0]⟩).length = 2 ∧
    IterEngine.consumeAll ⟨[1, 2, 3, 4, 5, 6], some 4, [fun n => n % 2 == 0]⟩ =
      ([1, 2, 3, 4, 5, 6].take 4).filter (fun n => n % 2 == 0) ∧
    IterEngine.consumeAll
        ⟨[1, 2, 3, 4, 5, 6].take 4 ++ [8, 10], some 4, [fun n => n % 2 == 0]⟩ =
      IterEngine.consumeAll ⟨[1, 2, 3, 4, 5, 6], some 4, [fun n => n % 2 == 0]⟩ :=
  claim_C1 [1, 2, 3, 4, 5, 6] [8, 10] 4 2 (fun n => n % 2 == 0)
    (by decide) (by decide) (by decide)

/-- C7: one() pulls at most one item of the filtered sequence — it fails
with NotFoundError exactly when the sequence is empty, never raises
MultipleFoundError even when more than one item remains, and on success
consumes exactly the first item, leaving every further item unconsumed. -/
theorem claim_C7 {α : Type} (e : IterEngine α) :
    (e.stream = [] → e.one = .error .notFoundError) ∧
    (∀ x rest, e.stream = x :: rest → e.one = .ok (x, rest)) ∧
    e.one ≠ .error .multipleFoundError := by
  refine ⟨?_, ?_, ?_⟩
  · intro h
    rw [IterEngine.one, h]
  · intro x rest h
    rw [IterEngine.one, h]
  · rw [IterEngine.one]
    cases e.stream with
    | nil => intro hc; injection hc with hc; exact IterError.noConfusion hc
    | cons x rest => intro hc; exact Except.noConfusion hc

def engineWitC7 : IterEngine Nat := ⟨[3, 4, 5], none, []⟩

theorem claim_C7_witness :
    engineWitC7.one = .ok (3, [4, 5]) ∧ engineWitC7.one ≠ .error .multipleFoundError :=
  ⟨(claim_C7 engineWitC7).2.1 3 [4, 5] (by decide), (claim_C7 engineWitC7).2.2⟩

/-- A raw listing entry as the external ListObjects collaborator returns
it: a key and a size. -/
structure ObjEntry where
  key : Str
  size : Nat
deriving DecidableEq

/-- An entry is a folder marker when its key ends with the path delimiter
— the empty object the S3 console creates for a "folder". -/
def isFolderEntry (e : ObjEntry) : Bool := decide (lastElem? e.key = some '/')

/-- Modelled from the spec/doc: iter_objects of the missing
`iter_objects` mixin — with include_folder=false (the default) every
folder-marker entry is dropped; with include_folder=true everything is
yielded. -/
def iter_objects (entries : List ObjEntry) (include_folder : Bool) : List ObjEntry :=
  if include_folder then entries
  else entries.filter (fun e => !(isFolderEntry e))

/-- Modelled from the spec/doc: count_objects counts exactly what
iter_objects yields. -/
def count_objects (entries : List ObjEntry) (include_folder : Bool) : Nat :=
  (iter_objects entries include_folder).length

/-- C10: by default (include_folder=false) an entry whose key ends with
the path delimiter is never yielded by iter_objects and never counted by
count_objects, while every other entry of the listing is yielded; such a
folder-marker entry is yielded only under include_folder=true. -/
theorem claim_C10 (entries : List ObjEntry) (e : ObjEntry) :
    (e ∈ iter_objects entries false ↔ (e ∈ entries ∧ isFolderEntry e = false)) ∧
    (isFolderEntry e = true → e ∉ iter_objects entries false) ∧
    iter_objects entries true = entries ∧
    count_objects entries false =
      (entries.filter (fun x => !(isFolderEntry x))).length := by
  have hmem : e ∈ iter_objects entries false ↔ (e ∈ entries ∧ isFolderEntry e = false) := by
    rw [iter_objects]
    simp only [Bool.false_eq_true, if_false, List.mem_filter, Bool.not_eq_true']
  refine ⟨hmem, ?_, rfl, rfl⟩
  intro hf hc
  rw [(hmem.mp hc).2] at hf
  exact Bool.noConfusion hf

def entriesWitC10 : List ObjEntry :=
  [⟨String.toList "folder/", 0⟩, ⟨String.toList "folder/file.txt", 10⟩]

theorem claim_C10_witness :
    (⟨String.toList "folder/", 0⟩ : ObjEntry) ∉ iter_objects entriesWitC10 false :=
  (claim_C10 entriesWitC10 ⟨String.toList "folder/", 0⟩).2.1 (by decide)

end S3PathLib
